import Mathlib

/-!
# Shallow embedding of the transaction-status tracker

This file embeds the transaction lifecycle tracker of `src/ui/src/transaction.ts`
(and the temporary sketch version of the same tracker found in the pool module)
into Lean 4 and proves or refutes the specified properties of its operations.

The svelte store holding the managed transactions is modelled as a `List Tx`;
each exported operation of the module becomes a function from the store value
to the new store value.  JavaScript-specific behaviour is embedded explicitly:

* `txs.length = Math.min(txs.length, n)` truncates a JavaScript array to its
  first `n` elements, i.e. `List.take n`;
* `if (newStatus)` tests JavaScript truthiness of a `TxStatus | undefined`
  value; the `TxStatus` enum members are nonempty strings, so the test is
  `Option.isSome` composed with nonemptiness of the member string;
* `txc.blockNumber ? a : b` tests truthiness of a `number | undefined`:
  both `undefined` and `0` are falsy;
* `Math.random()` is passed in explicitly as a rational draw `r` with
  `0 ≤ r < 1`, and JavaScript array indexing out of bounds yields `undefined`
  (modelled as `none`).
-/

namespace Transaction

/-- Status of a tracked transaction: `enum TxStatus` of `transaction.ts`.
The TypeScript enum members are strings, recorded in `TxStatus.stringValue`. -/
inductive TxStatus where
  | pendingApproval
  | awaitingInclusion
  | included
  | rejected
deriving DecidableEq, Repr

/-- The string value of each member of the TypeScript `enum TxStatus`. -/
def TxStatus.stringValue : TxStatus → String
  | .pendingApproval => "Pending Approval"
  | .awaitingInclusion => "Awaiting inclusion"
  | .included => "Included"
  | .rejected => "Rejected"

/-- JavaScript truthiness of a `TxStatus` value: the enum members are strings,
and a string is truthy exactly when it is nonempty.  This embeds the guard
`if (newStatus)` of `updateAll`. -/
def TxStatus.truthy (s : TxStatus) : Bool := s.stringValue ≠ ""

/-- The payload variants, `type PoolTx` of `transaction.ts`; `BigNumberish`
amounts are modelled as integers. -/
inductive PoolTx where
  | topUp (amount : Int)
  | collectFunds (amount : Int)
  | updateMonthlyContribution (amount : Int)
  | updateBeneficiaries
deriving DecidableEq, Repr

/-- A managed transaction record, `interface Tx` of `transaction.ts`. -/
structure Tx where
  hash : String
  status : TxStatus
  inner : PoolTx
deriving DecidableEq, Repr

/-- The fields of an ethers `ContractTransaction` read by the smart
constructors: `hash`, the optional `blockNumber`, and `value`. -/
structure ContractTransaction where
  hash : String
  blockNumber : Option Nat
  value : Int
deriving DecidableEq, Repr

/-- JavaScript truthiness of `txc.blockNumber : number | undefined`:
`undefined` is falsy and so is the number `0`. -/
def blockNumberTruthy : Option Nat → Bool
  | none => false
  | some n => n ≠ 0

/-- Smart constructor `amountPerBlock` of `transaction.ts`. -/
def amountPerBlock (txc : ContractTransaction) : Tx :=
  { hash := txc.hash
    status := if blockNumberTruthy txc.blockNumber then .included else .awaitingInclusion
    inner := .updateMonthlyContribution txc.value }

/-- Smart constructor `beneficiaries` of `transaction.ts`. -/
def beneficiaries (txc : ContractTransaction) : Tx :=
  { hash := txc.hash
    status := if blockNumberTruthy txc.blockNumber then .included else .awaitingInclusion
    inner := .updateBeneficiaries }

/-- Smart constructor `collect` of `transaction.ts`. -/
def collect (txc : ContractTransaction) : Tx :=
  { hash := txc.hash
    status := if blockNumberTruthy txc.blockNumber then .included else .awaitingInclusion
    inner := .collectFunds txc.value }

/-- Smart constructor `topUp` of `transaction.ts`. -/
def topUp (txc : ContractTransaction) : Tx :=
  { hash := txc.hash
    status := if blockNumberTruthy txc.blockNumber then .included else .awaitingInclusion
    inner := .topUp txc.value }

/-- Truncating a JavaScript array by assigning
`txs.length = Math.min(txs.length, n)` keeps its first `min(length, n)`
elements, i.e. its first `n` elements. -/
def capTo (n : Nat) (txs : List Tx) : List Tx := txs.take n

/-- `cap` of `transaction.ts`: `txs.length = Math.min(txs.length, 7)`. -/
def cap (txs : List Tx) : List Tx := capTo 7 txs

/-- `add` of `transaction.ts`: push `tx` at the end of the store, then `cap()`. -/
def add (txs : List Tx) (tx : Tx) : List Tx := cap (txs ++ [tx])

/-- `updateStatus` of `transaction.ts`.  `store.subscribe` invokes its callback
synchronously with the current store value; the callback looks up the first
record whose `hash` matches (`txs.find`) and, when found, assigns its `status`
field in place.  The embedding returns the store value after that synchronous
invocation. -/
def updateStatus (txs : List Tx) (hash : String) (status : TxStatus) : List Tx :=
  match txs with
  | [] => []
  | tx :: rest =>
      if tx.hash = hash then { tx with status := status } :: rest
      else tx :: updateStatus rest hash status

/-- `updateAll` of `transaction.ts`, parametrised by the behaviour of the
status lookup: `lookup` maps each hash to the value the lookup returns for it
during this round.  For every record the code evaluates
`lookupStatus(tx.hash)` and assigns `tx.status = newStatus` under the
truthiness guard `if (newStatus)`. -/
def updateAll (lookup : String → Option TxStatus) (txs : List Tx) : List Tx :=
  txs.map fun tx =>
    match lookup tx.hash with
    | some s => if s.truthy then { tx with status := s } else tx
    | none => tx

/-- `POLL_INTERVAL_MILLIS` of `transaction.ts`. -/
def POLL_INTERVAL_MILLIS : Nat := 10000

/-- The effect on the store of one firing of the timer callback registered by
`setInterval(() => updateAll, POLL_INTERVAL_MILLIS)`.  The callback body is
the bare expression `updateAll`: it evaluates to the function value and
discards it without calling it, so a firing performs no store mutation and
the store is returned unchanged. -/
def intervalTickEffect (_lookup : String → Option TxStatus) (txs : List Tx) : List Tx :=
  txs

/-- `randomInt(max)` inside `lookupStatus`:
`Math.floor(Math.random() * Math.floor(max))`, where the draw of
`Math.random()` is passed in explicitly as `r`.  `max` arrives as the integer
array length, so the inner `Math.floor(max)` is the identity. -/
def randomInt (max : Nat) (r : ℚ) : Int := ⌊r * (max : ℚ)⌋

/-- The `statuses` array built by `lookupStatus`. -/
def statuses : List TxStatus :=
  [.pendingApproval, .awaitingInclusion, .included, .rejected]

/-- JavaScript array indexing `a[i]`: `undefined` when `i` is out of bounds. -/
def jsIndex (l : List TxStatus) (i : Int) : Option TxStatus :=
  if i < 0 then none else l.get? i.toNat

/-- The shipped `lookupStatus` of `transaction.ts`, with the internal random
draw passed in explicitly: `statuses[randomInt(statuses.length)]`. -/
def lookupStatus (_hash : String) (r : ℚ) : Option TxStatus :=
  jsIndex statuses (randomInt statuses.length r)

/-- A call against the ledger: one of the three mutating entry points. -/
inductive Op where
  | addTx (tx : Tx)
  | setStatus (hash : String) (status : TxStatus)
  | refresh (lookup : String → Option TxStatus)

/-- Apply one call to the store value. -/
def applyOp (txs : List Tx) : Op → List Tx
  | .addTx tx => add txs tx
  | .setStatus h s => updateStatus txs h s
  | .refresh lookup => updateAll lookup txs

/-- The store value reached from the empty store by a sequence of calls. -/
def run (ops : List Op) : List Tx := ops.foldl applyOp []

/-- The hashes passed to `add`, in call order. -/
def addedHashes (ops : List Op) : List String :=
  ops.filterMap fun op =>
    match op with
    | .addTx tx => some tx.hash
    | _ => none

/-- The state after a sequence of `add` calls starting from `txs0`. -/
def addAll (txs0 : List Tx) (ins : List Tx) : List Tx := ins.foldl add txs0

end Transaction

namespace Sketch

/-- Status enum of the temporary sketch tracker (numeric enum members). -/
inductive TxStatus where
  | pendingApproval
  | awaitingInclusion
  | included
  | rejected
deriving DecidableEq, Repr

/-- Payload variants of the sketch tracker; amounts there are strings. -/
inductive PoolTx where
  | topUp (amount : String)
  | collectFunds (amount : String)
  | updateMonthlyContribution (amount : String)
  | updateBeneficiaries
deriving DecidableEq, Repr

/-- A managed record of the sketch tracker. -/
structure Tx where
  hash : String
  status : TxStatus
  inner : PoolTx
deriving DecidableEq, Repr

/-- `addTx` of the sketch: `transactions.push(tx)` and nothing else; in
particular it does not call `cap`. -/
def addTx (txs : List Tx) (tx : Tx) : List Tx := txs ++ [tx]

/-- `cap` of the sketch: `transactions.length = Math.min(transactions.length, 5)`.
No call site in the sketch invokes it. -/
def cap (txs : List Tx) : List Tx := txs.take 5

/-- The state after a sequence of sketch `addTx` calls starting from `txs0`. -/
def addAll (txs0 : List Tx) (ins : List Tx) : List Tx := ins.foldl addTx txs0

/-- Six concrete sketch records with pairwise distinct hashes. -/
def sampleSix : List Tx :=
  [⟨"1", .awaitingInclusion, .updateBeneficiaries⟩,
   ⟨"2", .awaitingInclusion, .updateBeneficiaries⟩,
   ⟨"3", .awaitingInclusion, .updateBeneficiaries⟩,
   ⟨"4", .awaitingInclusion, .updateBeneficiaries⟩,
   ⟨"5", .awaitingInclusion, .updateBeneficiaries⟩,
   ⟨"6", .awaitingInclusion, .updateBeneficiaries⟩]

end Sketch

namespace Transaction

/-- A concrete sample record, used to evaluate the operations on closed input. -/
def sampleTx (i : Nat) : Tx := ⟨toString i, .awaitingInclusion, .topUp (Int.ofNat i)⟩

/-- Eight concrete records with pairwise distinct hashes. -/
def eightAdds : List Tx :=
  [sampleTx 1, sampleTx 2, sampleTx 3, sampleTx 4,
   sampleTx 5, sampleTx 6, sampleTx 7, sampleTx 8]

end Transaction

/-! ## Theorems -/

namespace Transaction

/-- Taking `n` of an already-`n`-truncated prefix prepended to more elements
is the same as truncating the full concatenation. -/
lemma take_append_take {α : Type} (n : Nat) (l l₂ : List α) :
    (l.take n ++ l₂).take n = (l ++ l₂).take n := by
  rw [List.take_append_eq_append_take, List.take_append_eq_append_take,
      List.take_take, Nat.min_self, List.length_take]
  congr 2
  omega

/-- One `add` call from a capped state is the capped extension. -/
lemma add_take (l : List Tx) (tx : Tx) :
    add (l.take 7) tx = (l ++ [tx]).take 7 := by
  simp only [add, cap, capTo]
  exact take_append_take 7 l [tx]

/-- Folding `add` from a capped state truncates the concatenation. -/
lemma addAll_from_take (ins l : List Tx) :
    addAll (l.take 7) ins = (l ++ ins).take 7 := by
  induction ins generalizing l with
  | nil => simp [addAll]
  | cons tx rest ih =>
      have h1 : addAll (l.take 7) (tx :: rest) = addAll ((l ++ [tx]).take 7) rest := by
        simp [addAll, add_take l tx]
      rw [h1, ih (l ++ [tx])]
      simp

/-- From the empty store, a sequence of `add` calls retains the first 7 records. -/
lemma addAll_nil_eq_take (ins : List Tx) : addAll [] ins = ins.take 7 := by
  simpa using addAll_from_take ins []

end Transaction

namespace Sketch

/-- Folding the sketch `addTx` just appends: nothing ever caps the sketch store. -/
lemma addAll_eq_append (txs0 ins : List Tx) : addAll txs0 ins = txs0 ++ ins := by
  induction ins generalizing txs0 with
  | nil => simp [addAll]
  | cons t rest ih =>
      have h1 : addAll txs0 (t :: rest) = addAll (txs0 ++ [t]) rest := by
        simp [addAll, addTx]
      rw [h1, ih (txs0 ++ [t])]
      simp

end Sketch

namespace Transaction

/-- Claim C1 (amended): `add` appends the new record at the end, but `cap`
truncates the array to length 7 by assigning `txs.length`, which drops the
records at the BACK — the most recently added — not the front.  For every
sequence of `add` calls from the empty store, the retained records are the
FIRST 7 added, in insertion order; eviction is not FIFO.  With capacity 2 and
adds A, B, C in order the final contents would be [A, B], not [B, C]. -/
theorem add_seq_keeps_first_capacity (ins : List Tx) :
    addAll [] ins = ins.take 7 :=
  addAll_nil_eq_take ins

/-- Claim C1 counterexample: adding the eight records `1..8` in order leaves
the ledger holding the first seven, which differs from the most recently
added seven, refuting FIFO eviction at a concrete input. -/
theorem add_seq_drops_newest_cex :
    addAll [] eightAdds = eightAdds.take 7 ∧
    addAll [] eightAdds ≠ eightAdds.drop 1 := by
  constructor
  · rfl
  · decide

/-- Claim C3 (amended): in the main module, after every sequence of `add`
calls from the empty store, the ledger length is `min(total adds, 7)` and in
particular never exceeds 7.  In the sketch, `addTx` never invokes `cap`, so
the sketch ledger length equals the total number of adds and is unbounded:
the claimed formula fails there for N = 5. -/
theorem ledger_length_after_adds (ins : List Tx) (sins : List Sketch.Tx) :
    (addAll [] ins).length = min ins.length 7 ∧
    (addAll [] ins).length ≤ 7 ∧
    (Sketch.addAll [] sins).length = sins.length := by
  refine ⟨?_, ?_, ?_⟩
  · rw [addAll_nil_eq_take, List.length_take, Nat.min_comm]
  · rw [addAll_nil_eq_take]
    exact List.length_take_le 7 ins
  · rw [Sketch.addAll_eq_append]
    simp

/-- Claim C3 counterexample: six sketch `addTx` calls from the empty sketch
store leave six records, not `min(6, 5) = 5`: the sketch never caps. -/
theorem sketch_add_uncapped_cex :
    (Sketch.addAll [] Sketch.sampleSix).length = 6 ∧ ¬ ((6 : Nat) = min 6 5) := by
  constructor
  · rfl
  · decide

/-- Every member of the string enum `TxStatus` is a nonempty string, hence
truthy: the guard `if (newStatus)` never blocks a defined status. -/
lemma TxStatus.truthy_true (s : TxStatus) : s.truthy = true := by
  cases s <;> decide

/-- `updateAll` is exactly the per-record overwrite-with-defined-status map:
the truthiness guard is equivalent to definedness for this enum. -/
lemma updateAll_eq_map (lookup : String → Option TxStatus) (txs : List Tx) :
    updateAll lookup txs = txs.map fun tx =>
      match lookup tx.hash with
      | some s => { tx with status := s }
      | none => tx := by
  unfold updateAll
  apply List.map_congr_left
  intro tx _
  cases hl : lookup tx.hash with
  | none => rfl
  | some s => simp [TxStatus.truthy_true s]

/-- `updateAll` preserves the hash of every record, positionally. -/
lemma updateAll_map_hash (lookup : String → Option TxStatus) (txs : List Tx) :
    (updateAll lookup txs).map (·.hash) = txs.map (·.hash) := by
  rw [updateAll_eq_map, List.map_map]
  apply List.map_congr_left
  intro tx _
  simp only [Function.comp_apply]
  cases hl : lookup tx.hash <;> rfl

/-- `updateAll` preserves the payload of every record, positionally. -/
lemma updateAll_map_inner (lookup : String → Option TxStatus) (txs : List Tx) :
    (updateAll lookup txs).map (·.inner) = txs.map (·.inner) := by
  rw [updateAll_eq_map, List.map_map]
  apply List.map_congr_left
  intro tx _
  simp only [Function.comp_apply]
  cases hl : lookup tx.hash <;> rfl

/-- `updateStatus` leaves a store untouched when no record carries the hash. -/
lemma updateStatus_not_found (txs : List Tx) (h : String) (s : TxStatus)
    (habs : ∀ t ∈ txs, t.hash ≠ h) : updateStatus txs h s = txs := by
  induction txs with
  | nil => rfl
  | cons t rest ih =>
      have ht : t.hash ≠ h := habs t (by simp)
      simp only [updateStatus, if_neg ht]
      rw [ih fun u hu => habs u (by simp [hu])]

/-- `updateStatus` rewrites the status of the first record carrying the hash
and leaves every other record untouched. -/
lemma updateStatus_found (pre post : List Tx) (tx : Tx) (h : String) (s : TxStatus)
    (hpre : ∀ t ∈ pre, t.hash ≠ h) (htx : tx.hash = h) :
    updateStatus (pre ++ tx :: post) h s = pre ++ { tx with status := s } :: post := by
  induction pre with
  | nil => simp [updateStatus, htx]
  | cons p rest ih =>
      have hp : p.hash ≠ h := hpre p (by simp)
      have hrec := ih fun u hu => hpre u (by simp [hu])
      simp only [List.cons_append, updateStatus, if_neg hp, List.append_eq]
      rw [hrec]

/-- `updateStatus` preserves the hash of every record, positionally. -/
lemma updateStatus_map_hash (txs : List Tx) (h : String) (s : TxStatus) :
    (updateStatus txs h s).map (·.hash) = txs.map (·.hash) := by
  induction txs with
  | nil => rfl
  | cons t rest ih =>
      by_cases ht : t.hash = h
      · simp [updateStatus, ht]
      · simp [updateStatus, ht, ih]

/-- Claim C2 (amended): `Included` and `Rejected` are not terminal in the
code.  `updateStatus` overwrites the status of the first matching record
unconditionally, and `updateAll` overwrites with whatever defined status the
lookup returns, regardless of the current status: a record can transition out
of `Included` or `Rejected`; the ledger enforces no terminal-state guard. -/
theorem status_overwrite_unconditional (h : String) (p : PoolTx) (s0 s : TxStatus) :
    updateStatus [⟨h, s0, p⟩] h s = [⟨h, s, p⟩] ∧
    updateAll (fun _ => some s) [⟨h, s0, p⟩] = [⟨h, s, p⟩] := by
  constructor
  · simp [updateStatus]
  · simp [updateAll, TxStatus.truthy_true s]

/-- Claim C2 counterexample: a reachable trace in which a record reaches
`Included` and a later `updateStatus` call moves it back to
`PendingApproval`, refuting terminality at a concrete input. -/
theorem included_exited_cex :
    run [.addTx ⟨"0x1", .awaitingInclusion, .topUp 100⟩,
         .setStatus "0x1" .included]
      = [⟨"0x1", .included, .topUp 100⟩] ∧
    run [.addTx ⟨"0x1", .awaitingInclusion, .topUp 100⟩,
         .setStatus "0x1" .included,
         .setStatus "0x1" .pendingApproval]
      = [⟨"0x1", .pendingApproval, .topUp 100⟩] ∧
    TxStatus.pendingApproval ≠ TxStatus.included := by
  refine ⟨by decide, by decide, by decide⟩

/-- Claim C4 (confirmed): one refresh round maps each retained record through
the lookup at that record's own hash; a defined result — any of the four
statuses, `PendingApproval` included, since every enum member string is
truthy — overwrites the status, and an undefined result leaves the record
unchanged. -/
theorem refreshAll_overwrites_defined (lookup : String → Option TxStatus) (txs : List Tx) :
    updateAll lookup txs = txs.map fun tx =>
      match lookup tx.hash with
      | some s => { tx with status := s }
      | none => tx :=
  updateAll_eq_map lookup txs

/-- Claim C5 (confirmed): whatever the injected lookup returns, a refresh
round preserves the ledger length and, positionally, every record's hash and
payload: only status fields can change. -/
theorem refreshAll_frame (lookup : String → Option TxStatus) (txs : List Tx) :
    (updateAll lookup txs).length = txs.length ∧
    (updateAll lookup txs).map (·.hash) = txs.map (·.hash) ∧
    (updateAll lookup txs).map (·.inner) = txs.map (·.inner) := by
  refine ⟨?_, updateAll_map_hash lookup txs, updateAll_map_inner lookup txs⟩
  rw [updateAll_eq_map]
  simp

/-- Claim C6 (confirmed): if the store splits as `pre ++ tx :: post` with no
record of `pre` carrying the hash and `tx` carrying it, `updateStatus`
rewrites exactly the status of `tx` and leaves `pre`, `post` and the rest of
`tx` untouched; and on a store with no record carrying the hash it is the
identity, silently. -/
theorem updateStatus_first_match_spec (pre post absent : List Tx) (tx : Tx)
    (h : String) (s : TxStatus)
    (hpre : ∀ t ∈ pre, t.hash ≠ h) (htx : tx.hash = h)
    (habs : ∀ t ∈ absent, t.hash ≠ h) :
    updateStatus (pre ++ tx :: post) h s = pre ++ { tx with status := s } :: post ∧
    updateStatus absent h s = absent :=
  ⟨updateStatus_found pre post tx h s hpre htx,
   updateStatus_not_found absent h s habs⟩

/-- Claim C6 witness: concrete evaluation of both branches — hash `"2"`
present in the middle of a three-record store, and absent from a one-record
store. -/
theorem updateStatus_first_match_spec_witness :
    updateStatus [sampleTx 1, sampleTx 2, sampleTx 3] "2" .included
      = [sampleTx 1, { sampleTx 2 with status := .included }, sampleTx 3] ∧
    updateStatus [sampleTx 1] "2" .included = [sampleTx 1] := by
  have h := updateStatus_first_match_spec [sampleTx 1] [sampleTx 3] [sampleTx 1]
    (sampleTx 2) "2" .included (by decide) (by decide) (by decide)
  exact ⟨by simpa using h.1, h.2⟩

/-- `addedHashes` on a leading `add` call records its hash. -/
lemma addedHashes_cons_add (tx : Tx) (rest : List Op) :
    addedHashes (.addTx tx :: rest) = tx.hash :: addedHashes rest := rfl

/-- `addedHashes` ignores a leading `updateStatus` call. -/
lemma addedHashes_cons_set (h : String) (s : TxStatus) (rest : List Op) :
    addedHashes (.setStatus h s :: rest) = addedHashes rest := rfl

/-- `addedHashes` ignores a leading refresh call. -/
lemma addedHashes_cons_refresh (lookup : String → Option TxStatus) (rest : List Op) :
    addedHashes (.refresh lookup :: rest) = addedHashes rest := rfl

/-- Invariant of every trace: the hash column of the store is the 7-truncation
of the hashes passed to `add` so far (appended to those of the start state). -/
lemma foldl_applyOp_map_hash (ops : List Op) (txs : List Tx) (hs : List String)
    (hinv : txs.map (·.hash) = hs.take 7) :
    (ops.foldl applyOp txs).map (·.hash) = (hs ++ addedHashes ops).take 7 := by
  induction ops generalizing txs hs with
  | nil => simpa [addedHashes] using hinv
  | cons op rest ih =>
      cases op with
      | addTx tx =>
          have hstep : (add txs tx).map (·.hash) = (hs ++ [tx.hash]).take 7 := by
            simp only [add, cap, capTo, List.map_take, List.map_append, hinv,
              List.map_cons, List.map_nil]
            exact take_append_take 7 hs [tx.hash]
          have hrec := ih (add txs tx) (hs ++ [tx.hash]) hstep
          simp only [List.foldl_cons, applyOp, addedHashes_cons_add]
          rw [hrec, List.append_assoc]
          rfl
      | setStatus h s =>
          have hstep : (updateStatus txs h s).map (·.hash) = hs.take 7 := by
            rw [updateStatus_map_hash, hinv]
          have hrec := ih (updateStatus txs h s) hs hstep
          simpa only [List.foldl_cons, applyOp, addedHashes_cons_set] using hrec
      | refresh lookup =>
          have hstep : (updateAll lookup txs).map (·.hash) = hs.take 7 := by
            rw [updateAll_map_hash, hinv]
          have hrec := ih (updateAll lookup txs) hs hstep
          simpa only [List.foldl_cons, applyOp, addedHashes_cons_refresh] using hrec

/-- The hash column of any reachable state is the 7-truncation of the added
hashes. -/
lemma run_map_hash (ops : List Op) :
    (run ops).map (·.hash) = (addedHashes ops).take 7 := by
  simpa using foldl_applyOp_map_hash ops [] [] (by simp)

/-- Claim C7 (amended): hash uniqueness is NOT unconditional — `add` performs
no deduplication, so calling it twice with the same hash yields a reachable
state with two records of equal hash.  Uniqueness holds exactly under the
caller-side assumption that the hashes passed to `add` are pairwise distinct:
then every reachable state has pairwise distinct hashes, since `updateStatus`
and `updateAll` preserve the hash column and eviction only truncates it. -/
theorem nodup_hash_of_distinct_adds (ops : List Op)
    (hnd : (addedHashes ops).Nodup) :
    ((run ops).map (·.hash)).Nodup := by
  rw [run_map_hash]
  exact List.Nodup.sublist (List.take_sublist 7 _) hnd

/-- Claim C7 witness: two adds with the distinct hashes `"1"` and `"2"`
produce a duplicate-free state. -/
theorem nodup_hash_of_distinct_adds_witness :
    (addedHashes [.addTx (sampleTx 1), .addTx (sampleTx 2)]).Nodup ∧
    ((run [.addTx (sampleTx 1), .addTx (sampleTx 2)]).map (·.hash)).Nodup :=
  ⟨by decide, nodup_hash_of_distinct_adds _ (by decide)⟩

/-- Claim C7 counterexample: two `add` calls with the same hash `"h"` reach a
state whose two retained records share that hash, refuting the uniqueness
invariant as stated. -/
theorem duplicate_hash_reachable_cex :
    (run [.addTx ⟨"h", .awaitingInclusion, .topUp 1⟩,
          .addTx ⟨"h", .awaitingInclusion, .topUp 2⟩]).map (·.hash) = ["h", "h"] ∧
    ¬ ((run [.addTx ⟨"h", .awaitingInclusion, .topUp 1⟩,
             .addTx ⟨"h", .awaitingInclusion, .topUp 2⟩]).map (·.hash)).Nodup := by
  refine ⟨by decide, by decide⟩

/-- Claim C8 (code bug): the timer is registered with
`setInterval(() => updateAll, POLL_INTERVAL_MILLIS)` at a 10-second interval,
but the callback body is the bare function reference `updateAll`, never a
call.  Every firing leaves the store unchanged, even in states where a call
to `updateAll` would change it — contradicting the comment on the timer
(`Periodically refresh the status of all managed store.`) and the spec. -/
theorem interval_callback_noop :
    POLL_INTERVAL_MILLIS = 10000 ∧
    (∀ (lookup : String → Option TxStatus) (txs : List Tx),
        intervalTickEffect lookup txs = txs) ∧
    updateAll (fun _ => some .included) [⟨"0x1", .awaitingInclusion, .topUp 100⟩]
      = [⟨"0x1", .included, .topUp 100⟩] ∧
    ([⟨"0x1", .included, .topUp 100⟩] : List Tx)
      ≠ [⟨"0x1", .awaitingInclusion, .topUp 100⟩] := by
  refine ⟨rfl, fun lookup txs => rfl, by decide, by decide⟩

/-- Claim C9 (amended): each smart constructor copies `txc.hash` into the
record, and the initial status is `Included` exactly when `txc.blockNumber`
is truthy — present AND nonzero.  A transaction whose reported block number
is `0` (or absent) enters at `AwaitingInclusion` despite `blockNumber` being
present. -/
theorem constructor_hash_status_spec (txc : ContractTransaction) :
    (amountPerBlock txc).hash = txc.hash ∧
    (beneficiaries txc).hash = txc.hash ∧
    (collect txc).hash = txc.hash ∧
    (topUp txc).hash = txc.hash ∧
    ((amountPerBlock txc).status = .included ↔ blockNumberTruthy txc.blockNumber = true) ∧
    ((amountPerBlock txc).status = .awaitingInclusion ↔ blockNumberTruthy txc.blockNumber = false) ∧
    ((beneficiaries txc).status = .included ↔ blockNumberTruthy txc.blockNumber = true) ∧
    ((beneficiaries txc).status = .awaitingInclusion ↔ blockNumberTruthy txc.blockNumber = false) ∧
    ((collect txc).status = .included ↔ blockNumberTruthy txc.blockNumber = true) ∧
    ((collect txc).status = .awaitingInclusion ↔ blockNumberTruthy txc.blockNumber = false) ∧
    ((topUp txc).status = .included ↔ blockNumberTruthy txc.blockNumber = true) ∧
    ((topUp txc).status = .awaitingInclusion ↔ blockNumberTruthy txc.blockNumber = false) := by
  cases htr : blockNumberTruthy txc.blockNumber <;>
    simp [amountPerBlock, beneficiaries, collect, topUp, htr]

/-- Claim C9 counterexample: a `ContractTransaction` reported at block number
`0` has `blockNumber` present, yet every smart constructor initialises its
record at `AwaitingInclusion`, not `Included`, because `0` is falsy. -/
theorem blockNumber_zero_cex :
    ((⟨"0x1", some 0, 100⟩ : ContractTransaction).blockNumber).isSome = true ∧
    (topUp ⟨"0x1", some 0, 100⟩).status = .awaitingInclusion ∧
    (amountPerBlock ⟨"0x1", some 0, 100⟩).status = .awaitingInclusion ∧
    (beneficiaries ⟨"0x1", some 0, 100⟩).status = .awaitingInclusion ∧
    (collect ⟨"0x1", some 0, 100⟩).status = .awaitingInclusion ∧
    TxStatus.awaitingInclusion ≠ TxStatus.included := by
  decide

/-- Indexing the four-element `statuses` array at any integer in bounds
yields a defined status. -/
lemma jsIndex_statuses_some (i : Int) (h0 : 0 ≤ i) (h4 : i < 4) :
    ∃ s, s ∈ statuses ∧ jsIndex statuses i = some s := by
  interval_cases i
  · exact ⟨.pendingApproval, by decide, by decide⟩
  · exact ⟨.awaitingInclusion, by decide, by decide⟩
  · exact ⟨.included, by decide, by decide⟩
  · exact ⟨.rejected, by decide, by decide⟩

/-- Claim C10 (confirmed): for every hash and every random draw in `[0, 1)`,
the shipped `lookupStatus` returns a defined status among the four members of
the `statuses` array — `Math.floor(r * 4)` always lands in bounds, so the
undefined branch of the refresh loop is unreachable with this lookup. -/
theorem lookupStatus_always_some (h : String) (r : ℚ) (h0 : 0 ≤ r) (h1 : r < 1) :
    ∃ s, s ∈ statuses ∧ lookupStatus h r = some s := by
  have hcast : ((statuses.length : ℕ) : ℚ) = (4 : ℚ) := by norm_num [statuses]
  have hnn : (0 : ℚ) ≤ r * ((statuses.length : ℕ) : ℚ) := by
    rw [hcast]; linarith
  have hc4 : ((4 : ℤ) : ℚ) = (4 : ℚ) := by norm_num
  have hlt : r * ((statuses.length : ℕ) : ℚ) < ((4 : ℤ) : ℚ) := by
    rw [hcast, hc4]; linarith
  have hf0 : 0 ≤ randomInt statuses.length r := Int.floor_nonneg.mpr hnn
  have hf4 : randomInt statuses.length r < 4 := Int.floor_lt.mpr hlt
  exact jsIndex_statuses_some _ hf0 hf4

/-- Claim C10 witness: the draw `r = 1/2` is in `[0, 1)` and at it the lookup
returns a defined status. -/
theorem lookupStatus_always_some_witness :
    (0 : ℚ) ≤ 1 / 2 ∧ (1 / 2 : ℚ) < 1 ∧
    ∃ s, s ∈ statuses ∧ lookupStatus "h" (1 / 2) = some s :=
  ⟨by norm_num, by norm_num,
   lookupStatus_always_some "h" (1 / 2) (by norm_num) (by norm_num)⟩

end Transaction
